import Mathlib

/-!
Verification of the resumable chunked-upload protocol of this repository.

The definitions below are a shallow embedding of the client code in
`src/app/components/TransferForm.tsx` (the revision with pause/resume
support, lines 483-1700) and of the server route handlers in the Hono
worker (`src/unnamed/part_000`).  JavaScript numbers that hold byte
counts and part numbers are modelled as `Nat`; fallible operations
return `Except`/`Option`; the asynchronous handlers are modelled as
pure state-passing functions, with network responses supplied as
explicit arguments.
-/

namespace TransferProtocol

/-- `{ partNumber, etag }` as produced by `/api/uploads/chunk` and collected
into `uploadParts` by the client (TransferForm.tsx lines 893-898). -/
structure UploadPart where
  partNumber : Nat
  etag : String
deriving DecidableEq, Repr

/-! ## ChunkSlicer

`uploadFileInChunks` (TransferForm.tsx lines 689-696 and 880-888):
`CHUNK_SIZE = 5 * 1024 * 1024`, `chunks = Math.ceil(file.size / CHUNK_SIZE)`,
and for each `partNumber` from 1 to `chunks`,
`start = (partNumber - 1) * CHUNK_SIZE`, `end = Math.min(start + CHUNK_SIZE, file.size)`.
-/

/-- `CHUNK_SIZE = 5 * 1024 * 1024` (TransferForm.tsx line 690). -/
def CHUNK_SIZE : Nat := 5 * 1024 * 1024

/-- `Math.ceil(file.size / CHUNK_SIZE)` (TransferForm.tsx line 696),
as the usual natural-number ceiling division. -/
def numChunks (byteLength chunkSize : Nat) : Nat :=
  (byteLength + chunkSize - 1) / chunkSize

/-- One slice `{partNumber, start, endPos}`; `endPos` is the exclusive
upper bound (`end` in the source, renamed because `end` is a keyword). -/
structure ChunkRange where
  partNumber : Nat
  start : Nat
  endPos : Nat
deriving DecidableEq, Repr

/-- The ordered sequence of chunk ranges produced by the slicing loop of
`uploadFileInChunks` (TransferForm.tsx lines 880-888, identically lines
172-175 of the earlier revision). -/
def slice (byteLength chunkSize : Nat) : List ChunkRange :=
  (List.range (numChunks byteLength chunkSize)).map fun i =>
    let partNumber := i + 1
    let start := (partNumber - 1) * chunkSize
    { partNumber := partNumber
      start := start
      endPos := min (start + chunkSize) byteLength }

theorem numChunks_pos_iff (L c : Nat) (hc : 0 < c) :
    ∀ i, i < numChunks L c ↔ i * c < L := by
  intro i
  unfold numChunks
  constructor
  · intro h
    have h1 : i + 1 ≤ (L + c - 1) / c := h
    have h2 : (i + 1) * c ≤ L + c - 1 := (Nat.le_div_iff_mul_le hc).mp h1
    have h3 : (i + 1) * c = i * c + c := by ring
    omega
  · intro h
    have h2 : (i + 1) * c ≤ L + c - 1 := by
      have h3 : (i + 1) * c = i * c + c := by ring
      omega
    exact (Nat.le_div_iff_mul_le hc).mpr h2

theorem le_numChunks_mul (L c : Nat) (hc : 0 < c) : L ≤ numChunks L c * c := by
  by_contra hlt
  push_neg at hlt
  exact absurd ((numChunks_pos_iff L c hc (numChunks L c)).mpr hlt) (lt_irrefl _)

theorem slice_length (L c : Nat) : (slice L c).length = numChunks L c := by
  simp [slice]

theorem slice_get (L c : Nat) (i : Nat) (h : i < (slice L c).length) :
    (slice L c).get ⟨i, h⟩ = ⟨i + 1, i * c, min (i * c + c) L⟩ := by
  simp [slice]

/-- The full partition property claimed for the slicer, for byte length `L`
and chunk size `c`: exactly `ceil(L/c)` parts, part `p = i+1` covering
`[(p-1)*c, min(p*c, L))`, each of length at most `c`, contiguous,
non-overlapping, and jointly covering `[0, L)`. -/
def SlicePartitionSpec (L c : Nat) : Prop :=
  (slice L c).length = numChunks L c ∧
  (∀ i, ∀ h : i < (slice L c).length,
      (slice L c).get ⟨i, h⟩ = ⟨i + 1, i * c, min (i * c + c) L⟩) ∧
  (∀ r ∈ slice L c, r.endPos - r.start ≤ c) ∧
  (∀ i, ∀ h : i + 1 < (slice L c).length,
      ((slice L c).get ⟨i, Nat.lt_of_succ_lt h⟩).endPos =
        ((slice L c).get ⟨i + 1, h⟩).start) ∧
  (∀ b, b < L → ∃ i, ∃ h : i < (slice L c).length,
      ((slice L c).get ⟨i, h⟩).start ≤ b ∧ b < ((slice L c).get ⟨i, h⟩).endPos) ∧
  (∀ i j, ∀ hi : i < (slice L c).length, ∀ hj : j < (slice L c).length,
      i ≠ j → ∀ b, ((slice L c).get ⟨i, hi⟩).start ≤ b →
        b < ((slice L c).get ⟨i, hi⟩).endPos →
        ¬(((slice L c).get ⟨j, hj⟩).start ≤ b ∧ b < ((slice L c).get ⟨j, hj⟩).endPos))

/-- C3: for every byte length and positive chunk size, the slicing loop of
`uploadFileInChunks` produces exactly `ceil(byteLength/chunkSize)` parts with
part `p` covering `[(p-1)*chunkSize, min(p*chunkSize, byteLength))`; the
ranges have length at most `chunkSize`, are contiguous, non-overlapping, and
their union covers `[0, byteLength)`. -/
theorem slice_partition (L c : Nat) (hc : 0 < c) : SlicePartitionSpec L c := by
  have hlen := slice_length L c
  have hget := slice_get L c
  refine ⟨hlen, hget, ?_, ?_, ?_, ?_⟩
  · intro r hr
    simp only [slice, List.mem_map, List.mem_range] at hr
    obtain ⟨i, _, rfl⟩ := hr
    simp only
    omega
  · intro i h
    rw [hget i (Nat.lt_of_succ_lt h), hget (i + 1) h]
    simp only
    have hi1 : i + 1 < numChunks L c := by rw [hlen] at h; exact h
    have : (i + 1) * c < L := (numChunks_pos_iff L c hc (i + 1)).mp hi1
    have h3 : (i + 1) * c = i * c + c := by ring
    omega
  · intro b hb
    have hdm : b / c * c + b % c = b := by
      rw [Nat.mul_comm]; exact Nat.div_add_mod b c
    have hml : b % c < c := Nat.mod_lt b hc
    have hstart : b / c * c ≤ b := Nat.div_mul_le_self b c
    have hmem : b / c < (slice L c).length := by
      rw [hlen]
      exact (numChunks_pos_iff L c hc (b / c)).mpr (Nat.lt_of_le_of_lt hstart hb)
    refine ⟨b / c, hmem, ?_⟩
    rw [hget (b / c) hmem]
    simp only
    omega
  · intro i j hi hj hij b hib hib2 hjmem
    rw [hget i hi] at hib hib2
    rw [hget j hj] at hjmem
    simp only at hib hib2 hjmem
    obtain ⟨hjb, hjb2⟩ := hjmem
    rcases Nat.lt_or_ge i j with hlt | hge
    · -- b < (i+1)*c ≤ j*c ≤ b, contradiction
      have : (i + 1) * c ≤ j * c := Nat.mul_le_mul_right c hlt
      have h3 : (i + 1) * c = i * c + c := by ring
      omega
    · have hjlt : j < i := Nat.lt_of_le_of_ne hge (fun h => hij h.symm)
      have : (j + 1) * c ≤ i * c := Nat.mul_le_mul_right c hjlt
      have h3 : (j + 1) * c = j * c + c := by ring
      omega

/-- Concrete instance of `slice_partition` at byte length 12 and chunk size 5. -/
theorem slice_partition_witness : 0 < 5 ∧ SlicePartitionSpec 12 5 :=
  ⟨by decide, slice_partition 12 5 (by decide)⟩

/-! ## Resume dispatch

On resume, `uploadFileInChunks` reads
`uploadParts = [...(fileInfo.uploadedParts || [])]` and
`startPart = (fileInfo.currentPart || 0) + 1` (lines 697-698), then loops
`for (partNumber = startPart; partNumber <= chunks; partNumber++)` skipping
any `partNumber` found in `uploadParts` (lines 880-884).  The state written
on pause stores `currentPart` as the maximum completed part number, or 0
when none completed (lines 739 and 948).
-/

/-- `uploadParts.length > 0 ? Math.max(...uploadParts.map(p => p.partNumber)) : 0`
(TransferForm.tsx lines 739 and 948). -/
def currentPartOf (parts : List UploadPart) : Nat :=
  (parts.map UploadPart.partNumber).foldr max 0

/-- The fields of `FileInfo` that determine which parts a resume dispatches. -/
structure FileResumeState where
  uploadedParts : List UploadPart
  currentPart : Nat
deriving DecidableEq, Repr

/-- `startPart = (fileInfo.currentPart || 0) + 1` (TransferForm.tsx line 698). -/
def startPart (f : FileResumeState) : Nat := f.currentPart + 1

/-- The part numbers for which an upload task is created by the loop of
`uploadFileInChunks` (TransferForm.tsx lines 880-910): `partNumber` runs from
`startPart` to `chunks`, and numbers present in `uploadedParts` are skipped
(`continue`) before dispatch. -/
def dispatchedParts (f : FileResumeState) (chunks : Nat) : List Nat :=
  (List.range' (startPart f) (chunks + 1 - startPart f)).filter
    fun partNumber => ¬ f.uploadedParts.any fun p => p.partNumber == partNumber

/-- C1 counterexample: resuming a paused file with 2 total parts whose
completed-parts set is `{2}` (so the stored `currentPart` is 2) dispatches
nothing at all; in particular part 1, which is not in the completed set, is
never dispatched — refuting the claim that the dispatched set always equals
`{1..N} \ S`. -/
theorem resume_dispatch_cex :
    ¬ (∀ p, p ∈ dispatchedParts ⟨[⟨2, "e2"⟩], currentPartOf [⟨2, "e2"⟩]⟩ 2 ↔
        (1 ≤ p ∧ p ≤ 2 ∧
          p ∉ ([⟨2, "e2"⟩] : List UploadPart).map UploadPart.partNumber)) := by
  intro h
  have h1 : (1 : Nat) ∈ dispatchedParts ⟨[⟨2, "e2"⟩], currentPartOf [⟨2, "e2"⟩]⟩ 2 :=
    (h 1).mpr ⟨Nat.le_refl 1, by decide, by decide⟩
  revert h1
  decide

theorem mem_dispatchedParts_iff (f : FileResumeState) (chunks : Nat) (p : Nat) :
    p ∈ dispatchedParts f chunks ↔
      (f.currentPart < p ∧ p ≤ chunks ∧
        ¬ f.uploadedParts.any fun q => q.partNumber == p) := by
  simp only [dispatchedParts, List.mem_filter, List.mem_range'_1, startPart,
    decide_not, Bool.not_eq_true', decide_eq_false_iff_not]
  constructor
  · rintro ⟨⟨h1, h2⟩, h3⟩
    exact ⟨by omega, by omega, by simpa using h3⟩
  · rintro ⟨h1, h2, h3⟩
    exact ⟨⟨by omega, by omega⟩, by simpa using h3⟩

theorem le_currentPartOf (parts : List UploadPart) (q : UploadPart) (hq : q ∈ parts) :
    q.partNumber ≤ currentPartOf parts := by
  induction parts with
  | nil => cases hq
  | cons a l ih =>
    rcases List.mem_cons.mp hq with hq1 | hq1
    · subst hq1
      simp only [currentPartOf, List.map_cons, List.foldr_cons]
      exact Nat.le_max_left _ _
    · simp only [currentPartOf, List.map_cons, List.foldr_cons]
      exact Nat.le_trans (ih hq1) (Nat.le_max_right _ _)

/-- C1 amended: a resume from file state with completed set `S` and stored
`currentPart = max(S)` dispatches exactly the part numbers `p` with
`max(S) < p ≤ N`; no completed part number is ever re-dispatched; and in the
concrete case of parts 1..3 of 10 completed, exactly parts 4..10 are
dispatched.  (The dispatched set equals `{1..N} \ S` only when `S` is a
downward-closed prefix `{1..k}`, as in that concrete case.) -/
theorem resume_dispatch_amended (parts : List UploadPart) (chunks : Nat) :
    (∀ p, p ∈ dispatchedParts ⟨parts, currentPartOf parts⟩ chunks ↔
        (currentPartOf parts < p ∧ p ≤ chunks)) ∧
    (∀ q ∈ parts, q.partNumber ∉ dispatchedParts ⟨parts, currentPartOf parts⟩ chunks) ∧
    dispatchedParts
        ⟨(List.range' 1 3).map (fun p => ⟨p, "etag"⟩), currentPartOf
          ((List.range' 1 3).map (fun p => ⟨p, "etag"⟩))⟩ 10 =
      List.range' 4 7 := by
  refine ⟨?_, ?_, by decide⟩
  · intro p
    rw [mem_dispatchedParts_iff]
    constructor
    · rintro ⟨h1, h2, _⟩; exact ⟨h1, h2⟩
    · rintro ⟨h1, h2⟩
      refine ⟨h1, h2, ?_⟩
      simp only [List.any_eq_true, beq_iff_eq, not_exists, not_and]
      intro q hq hqp
      exact absurd h1 (by rw [← hqp] at h1 ⊢; exact Nat.not_lt.mpr (le_currentPartOf parts q hq))
  · intro q hq hmem
    rw [mem_dispatchedParts_iff] at hmem
    exact absurd hmem.1 (Nat.not_lt.mpr (le_currentPartOf parts q hq))

/-- Concrete application of `resume_dispatch_amended`: with parts 1..3 of 10
completed, part 4 is dispatched. -/
theorem resume_dispatch_amended_witness :
    (4 : Nat) ∈ dispatchedParts
        ⟨[⟨1, "a"⟩, ⟨2, "b"⟩, ⟨3, "c"⟩],
          currentPartOf [⟨1, "a"⟩, ⟨2, "b"⟩, ⟨3, "c"⟩]⟩ 10 :=
  ((resume_dispatch_amended [⟨1, "a"⟩, ⟨2, "b"⟩, ⟨3, "c"⟩] 10).1 4).mpr
    ⟨by decide, by decide⟩

/-! ## PartUploader retry policy

`uploadChunkWithRetry` (TransferForm.tsx lines 746-852): each attempt is an
XMLHttpRequest that settles as a 2xx success, a non-2xx HTTP failure, a JSON
parse failure, a network error, or a pause/cancel signal (rejections with
message `'Upload paused'` / `'Upload cancelled'` or name `'AbortError'`).
Pause/cancel rejections are rethrown immediately (line 840-842); other
failures are retried while `retryCount < MAX_RETRIES` after sleeping
`RETRY_DELAY * Math.pow(2, retryCount)` milliseconds (lines 844-848), else a
permanent failure is raised (line 850).  The sequence of attempt outcomes is
supplied as an oracle indexed by `retryCount`.
-/

/-- `MAX_RETRIES = 3` (TransferForm.tsx line 691). -/
def MAX_RETRIES : Nat := 3

/-- `RETRY_DELAY = 1000` milliseconds (TransferForm.tsx line 692). -/
def RETRY_DELAY : Nat := 1000

/-- How one upload attempt of a part settles. -/
inductive AttemptResult
  | success (etag : String)
  | httpFailure (status : Nat) (statusText : String)
  | invalidJson
  | networkFailure
  | pausedSignal
  | cancelledSignal
deriving DecidableEq, Repr

/-- The transient failures: rejections that are retried (not pause/cancel,
not success). -/
def isTransient : AttemptResult → Bool
  | .httpFailure _ _ => true
  | .invalidJson => true
  | .networkFailure => true
  | _ => false

/-- The rejection message of a failed attempt (TransferForm.tsx lines
796, 800, 807). -/
def attemptMessage : AttemptResult → String
  | .httpFailure status statusText => "HTTP " ++ toString status ++ ": " ++ statusText
  | .invalidJson => "Invalid JSON response"
  | .networkFailure => "Network error"
  | .success _ => ""
  | .pausedSignal => "Upload paused"
  | .cancelledSignal => "Upload cancelled"

/-- How `uploadChunkWithRetry` finally rejects or resolves: the distinguished
pause and cancel conditions are kept apart from permanent failure. -/
inductive UploadErr
  | pausedErr
  | cancelledErr
  | failedErr (msg : String)
deriving DecidableEq, Repr

/-- `uploadChunkWithRetry(partNumber, chunk, retryCount)` (TransferForm.tsx
lines 746-852).  `outcomes i` is how the attempt with `retryCount = i`
settles.  Returns the final result together with the list of backoff delays
slept (one delay per retry actually taken, in order). -/
def uploadChunkWithRetry (partNumber : Nat) (outcomes : Nat → AttemptResult)
    (retryCount : Nat) : Except UploadErr UploadPart × List Nat :=
  match outcomes retryCount with
  | .success etag => (.ok ⟨partNumber, etag⟩, [])
  | .pausedSignal => (.error .pausedErr, [])
  | .cancelledSignal => (.error .cancelledErr, [])
  | r =>
    if h : retryCount < MAX_RETRIES then
      let rest := uploadChunkWithRetry partNumber outcomes (retryCount + 1)
      (rest.1, RETRY_DELAY * 2 ^ retryCount :: rest.2)
    else
      (.error (.failedErr ("Failed to upload part " ++ toString partNumber ++
        " after " ++ toString (MAX_RETRIES + 1) ++ " attempts: " ++ attemptMessage r)), [])
termination_by MAX_RETRIES - retryCount
decreasing_by omega

theorem uploadChunkWithRetry_delays_length (p : Nat) (o : Nat → AttemptResult) :
    ∀ r, (uploadChunkWithRetry p o r).2.length ≤ MAX_RETRIES - r := by
  suffices key : ∀ n r, MAX_RETRIES - r = n →
      (uploadChunkWithRetry p o r).2.length ≤ MAX_RETRIES - r by
    intro r; exact key _ r rfl
  intro n
  induction n using Nat.strong_induction_on with
  | _ n ih =>
    intro r hn
    rw [uploadChunkWithRetry]
    cases ho : o r with
    | success e => simp
    | pausedSignal => simp
    | cancelledSignal => simp
    | httpFailure s t =>
      simp only
      split
      · next hlt =>
        have := ih (MAX_RETRIES - (r + 1)) (by omega) (r + 1) rfl
        simp only [List.length_cons]
        omega
      · simp
    | invalidJson =>
      simp only
      split
      · next hlt =>
        have := ih (MAX_RETRIES - (r + 1)) (by omega) (r + 1) rfl
        simp only [List.length_cons]
        omega
      · simp
    | networkFailure =>
      simp only
      split
      · next hlt =>
        have := ih (MAX_RETRIES - (r + 1)) (by omega) (r + 1) rfl
        simp only [List.length_cons]
        omega
      · simp

theorem uploadChunkWithRetry_delays_eq (p : Nat) (o : Nat → AttemptResult) :
    ∀ r, ∃ m, m ≤ MAX_RETRIES - r ∧
      (uploadChunkWithRetry p o r).2 =
        (List.range' r m).map fun k => RETRY_DELAY * 2 ^ k := by
  suffices key : ∀ n r, MAX_RETRIES - r = n → ∃ m, m ≤ MAX_RETRIES - r ∧
      (uploadChunkWithRetry p o r).2 =
        (List.range' r m).map fun k => RETRY_DELAY * 2 ^ k by
    intro r; exact key _ r rfl
  intro n
  induction n using Nat.strong_induction_on with
  | _ n ih =>
    intro r hn
    rw [uploadChunkWithRetry]
    cases ho : o r with
    | success e => exact ⟨0, by omega, by simp⟩
    | pausedSignal => exact ⟨0, by omega, by simp⟩
    | cancelledSignal => exact ⟨0, by omega, by simp⟩
    | httpFailure s t =>
      simp only
      split
      · next hlt =>
        obtain ⟨m, hm, he⟩ := ih (MAX_RETRIES - (r + 1)) (by omega) (r + 1) rfl
        exact ⟨m + 1, by omega, by simp only [he, List.range'_succ, List.map_cons]⟩
      · exact ⟨0, by omega, by simp⟩
    | invalidJson =>
      simp only
      split
      · next hlt =>
        obtain ⟨m, hm, he⟩ := ih (MAX_RETRIES - (r + 1)) (by omega) (r + 1) rfl
        exact ⟨m + 1, by omega, by simp only [he, List.range'_succ, List.map_cons]⟩
      · exact ⟨0, by omega, by simp⟩
    | networkFailure =>
      simp only
      split
      · next hlt =>
        obtain ⟨m, hm, he⟩ := ih (MAX_RETRIES - (r + 1)) (by omega) (r + 1) rfl
        exact ⟨m + 1, by omega, by simp only [he, List.range'_succ, List.map_cons]⟩
      · exact ⟨0, by omega, by simp⟩

theorem uploadChunkWithRetry_delays_get (p : Nat) (o : Nat → AttemptResult) :
    ∀ i, ∀ h : i < (uploadChunkWithRetry p o 0).2.length,
      (uploadChunkWithRetry p o 0).2.get ⟨i, h⟩ = RETRY_DELAY * 2 ^ i := by
  intro i h
  obtain ⟨m, hm, he⟩ := uploadChunkWithRetry_delays_eq p o 0
  rw [List.get_of_eq he ⟨i, h⟩]
  simp [List.getElem_range']

theorem uploadChunkWithRetry_pause_cancel (p : Nat) (o : Nat → AttemptResult) :
    ∀ j r, r + j ≤ MAX_RETRIES → (∀ i, i < j → isTransient (o (r + i)) = true) →
      (o (r + j) = .pausedSignal →
        uploadChunkWithRetry p o r = (.error .pausedErr,
          (List.range' r j).map fun k => RETRY_DELAY * 2 ^ k)) ∧
      (o (r + j) = .cancelledSignal →
        uploadChunkWithRetry p o r = (.error .cancelledErr,
          (List.range' r j).map fun k => RETRY_DELAY * 2 ^ k)) := by
  intro j
  induction j with
  | zero =>
    intro r _ _
    constructor
    · intro hp
      rw [uploadChunkWithRetry]
      rw [show o r = AttemptResult.pausedSignal from hp]
      simp
    · intro hp
      rw [uploadChunkWithRetry]
      rw [show o r = AttemptResult.cancelledSignal from hp]
      simp
  | succ j ih =>
    intro r hle htr
    have h0 : isTransient (o r) = true := by
      have := htr 0 (Nat.succ_pos j)
      simpa using this
    have hrec := ih (r + 1) (by omega) (fun i hi => by
      have := htr (i + 1) (by omega)
      rwa [show r + (i + 1) = r + 1 + i by omega] at this)
    have hstep : ∀ e, uploadChunkWithRetry p o (r + 1) = e →
        uploadChunkWithRetry p o r =
          (e.1, RETRY_DELAY * 2 ^ r :: e.2) := by
      intro e he
      rw [uploadChunkWithRetry]
      cases ho : o r with
      | success etag => rw [ho] at h0; simp [isTransient] at h0
      | pausedSignal => rw [ho] at h0; simp [isTransient] at h0
      | cancelledSignal => rw [ho] at h0; simp [isTransient] at h0
      | httpFailure s t =>
        simp only
        rw [dif_pos (by omega : r < MAX_RETRIES)]
        rw [he]
      | invalidJson =>
        simp only
        rw [dif_pos (by omega : r < MAX_RETRIES)]
        rw [he]
      | networkFailure =>
        simp only
        rw [dif_pos (by omega : r < MAX_RETRIES)]
        rw [he]
    constructor
    · intro hp
      have := hrec.1 (by rwa [show r + 1 + j = r + (j + 1) by omega])
      have hfin := hstep _ this
      rw [hfin]
      rw [List.range'_succ]
      simp
    · intro hp
      have := hrec.2 (by rwa [show r + 1 + j = r + (j + 1) by omega])
      have hfin := hstep _ this
      rw [hfin]
      rw [List.range'_succ]
      simp

/-- The retry-policy properties of `uploadChunkWithRetry` starting from
`retryCount = 0`: at most `MAX_RETRIES` backoff delays (hence at most
`MAX_RETRIES + 1 = 4` total attempts); the delay before the `k`-th retry
(0-indexed `i = k-1`) is `RETRY_DELAY * 2 ^ i`, doubling each attempt; and a
pause (resp. cancel) signal at any attempt `j ≤ MAX_RETRIES`, after `j`
transient failures, is raised immediately as the distinguished paused (resp.
cancelled) condition with no delay consumed for it and never converted into
a generic failure. -/
def RetryPolicySpec (p : Nat) (o : Nat → AttemptResult) : Prop :=
  (uploadChunkWithRetry p o 0).2.length ≤ MAX_RETRIES ∧
  (∀ i, ∀ h : i < (uploadChunkWithRetry p o 0).2.length,
      (uploadChunkWithRetry p o 0).2.get ⟨i, h⟩ = RETRY_DELAY * 2 ^ i) ∧
  (∀ j, j ≤ MAX_RETRIES → (∀ i, i < j → isTransient (o i) = true) →
    (o j = .pausedSignal →
      (uploadChunkWithRetry p o 0).1 = .error .pausedErr ∧
      (uploadChunkWithRetry p o 0).2.length = j) ∧
    (o j = .cancelledSignal →
      (uploadChunkWithRetry p o 0).1 = .error .cancelledErr ∧
      (uploadChunkWithRetry p o 0).2.length = j))

/-- C5: the single-part retry policy — transient failures are retried at
most 3 additional times (at most 4 total attempts) with delays
`1000 * 2 ^ (k-1)` ms before retry `k`, and pause/cancel signals are
re-raised immediately as the distinguished paused/cancelled conditions,
consuming no retry and never becoming a generic failure. -/
theorem retry_policy (p : Nat) (o : Nat → AttemptResult) : RetryPolicySpec p o := by
  refine ⟨?_, ?_, ?_⟩
  · have := uploadChunkWithRetry_delays_length p o 0
    simpa using this
  · intro i h
    exact uploadChunkWithRetry_delays_get p o i h
  · intro j hj htr
    have := uploadChunkWithRetry_pause_cancel p o j 0 (by omega)
      (fun i hi => by simpa using htr i hi)
    constructor
    · intro hp
      have h2 := this.1 (by simpa using hp)
      rw [h2]
      simp
    · intro hp
      have h2 := this.2 (by simpa using hp)
      rw [h2]
      simp

/-- Concrete application of `retry_policy`: with every attempt failing with
a network error, part 7 sleeps at most `MAX_RETRIES` backoff delays. -/
theorem retry_policy_witness :
    (uploadChunkWithRetry 7 (fun _ => .networkFailure) 0).2.length ≤ MAX_RETRIES :=
  (retry_policy 7 (fun _ => .networkFailure)).1

/-! ## Sorting the parts for finalize

`uploadParts.sort((a, b) => a.partNumber - b.partNumber)`
(TransferForm.tsx line 919): ascending sort by part number before the
parts are handed to `completeFileUpload`.
-/

/-- The ascending-by-`partNumber` sort applied to `uploadParts` before the
finalize call (TransferForm.tsx line 919). -/
def sortUploadParts (parts : List UploadPart) : List UploadPart :=
  parts.mergeSort fun a b => a.partNumber ≤ b.partNumber

/-- C4: whenever the collected parts of a file with `N` total parts carry
the part numbers `1..N` in any arrival order (each exactly once), the list
passed to finalize is sorted ascending by part number and its part numbers
are exactly `[1..N]`, duplicate-free. -/
theorem finalize_parts_sorted (parts : List UploadPart) (N : Nat)
    (h : (parts.map UploadPart.partNumber).Perm (List.range' 1 N)) :
    (sortUploadParts parts).map UploadPart.partNumber = List.range' 1 N ∧
    ((sortUploadParts parts).map UploadPart.partNumber).Nodup ∧
    List.Sorted (· ≤ ·) ((sortUploadParts parts).map UploadPart.partNumber) := by
  have hperm : ((sortUploadParts parts).map UploadPart.partNumber).Perm
      (List.range' 1 N) :=
    ((List.mergeSort_perm parts _).map UploadPart.partNumber).trans h
  have hsorted : List.Sorted (· ≤ ·)
      ((sortUploadParts parts).map UploadPart.partNumber) := by
    have hpw := @List.sorted_mergeSort UploadPart
      (fun a b : UploadPart => decide (a.partNumber ≤ b.partNumber))
      (fun a b c hab hbc => by
        simp only [decide_eq_true_eq] at hab hbc ⊢
        exact Nat.le_trans hab hbc)
      (fun a b => by
        simp only [Bool.or_eq_true, decide_eq_true_eq]
        exact Nat.le_total a.partNumber b.partNumber)
      parts
    have : List.Pairwise
        (fun a b : UploadPart => a.partNumber ≤ b.partNumber)
        (sortUploadParts parts) := by
      refine hpw.imp ?_
      intro a b hab
      simpa using hab
    exact List.Pairwise.map UploadPart.partNumber (fun a b hab => hab) this
  have hrange : List.Sorted (· ≤ ·) (List.range' 1 N) :=
    List.Pairwise.imp Nat.le_of_lt (List.pairwise_lt_range' 1 N)
  have heq : (sortUploadParts parts).map UploadPart.partNumber = List.range' 1 N :=
    List.eq_of_perm_of_sorted hperm hsorted hrange
  refine ⟨heq, ?_, hsorted⟩
  rw [heq]
  exact (List.pairwise_lt_range' 1 N).imp Nat.ne_of_lt

/-- Concrete application of `finalize_parts_sorted`: parts arriving in the
order 3, 1, 2 are handed to finalize as `[1, 2, 3]`. -/
theorem finalize_parts_sorted_witness :
    (sortUploadParts [⟨3, "c"⟩, ⟨1, "a"⟩, ⟨2, "b"⟩]).map UploadPart.partNumber =
      List.range' 1 3 :=
  (finalize_parts_sorted [⟨3, "c"⟩, ⟨1, "a"⟩, ⟨2, "b"⟩] 3 (by decide)).1

/-! ## Client upload state machine

`FileInfo` (TransferForm.tsx lines 487-499) and the component state that the
pause/resume handlers mutate: `formData.files`, `transferId`,
`pausedUploads`, the abort-controller map, the `localStorage` record
(`saveUploadState` / `clearUploadState`, lines 1010-1050) and the
resume-notification flag.
-/

/-- `status` field of `FileInfo` (TransferForm.tsx line 493). -/
inductive Status
  | pending
  | uploading
  | paused
  | completed
  | error
deriving DecidableEq, Repr

/-- The serializable fields of `FileInfo` (TransferForm.tsx lines 487-499);
the raw `File` object is modelled separately by a `hasFile` flag where it
matters. -/
structure FileInfoSt where
  id : String
  name : String
  size : Nat
  progress : Nat
  status : Status
  uploadId : Option String
  key : Option String
  uploadedParts : List UploadPart
  currentPart : Nat
  error : Option String
deriving DecidableEq, Repr

/-- The component state touched by the pause/resume handlers: `formData.files`,
`transferId`, `pausedUploads`, the abort controllers (file id paired with
whether `abort()` has been called), whether the `localStorage` upload-state
record exists, and `showResumeNotification`. -/
structure ClientState where
  files : List FileInfoSt
  transferId : String
  pausedUploads : List String
  abortControllers : List (String × Bool)
  savedState : Bool
  showResumeNotification : Bool
deriving DecidableEq, Repr

/-- Body of `/api/transfers/validate/:transferId`'s JSON reply as the client
reads it: `{ valid: boolean, reason?: string }` (TransferForm.tsx line 1210). -/
structure ValidationResponse where
  valid : Bool
  reason : Option String
deriving DecidableEq, Repr

/-- The `!validation.valid` branch of `resumeFileUpload` (TransferForm.tsx
lines 1212-1231): the file's status becomes `error` with a restart message
(the JS template renders a missing reason as `"undefined"`), `transferId` is
cleared, `clearUploadState()` removes the persisted record, and the resume
notification is hidden.  Nothing else is written — in particular the file's
`uploadId` and `key` fields are left as they were. -/
def handleValidationFailure (s : ClientState) (fileId : String)
    (reason : Option String) : ClientState :=
  { s with
    files := s.files.map fun f =>
      if f.id = fileId then
        { f with
          status := .error
          error := some ("Cannot resume: " ++ reason.getD "undefined" ++
            ". Please start a fresh upload.") }
      else f
    transferId := ""
    savedState := false
    showResumeNotification := false }

/-- What a call to `resumeFileUpload` goes on to do after its guards. -/
inductive ResumeAction
  | noAction
  | invalidated
  | validationUnreachable
  | reselectFile
  | uploadWith (key : Option String) (uploadId : Option String)
deriving DecidableEq, Repr

/-- The tail of `resumeFileUpload` once validation has passed or been skipped
(TransferForm.tsx lines 1240-1270): if the raw `File` object is missing the
user is prompted to re-select it; otherwise the file leaves `pausedUploads`,
its status becomes `uploading`, and `uploadFileInChunks` is invoked with
`fileData = { key: fileInfo.key, uploadId: fileInfo.uploadId }`. -/
def resumeProceed (s : ClientState) (f : FileInfoSt) (hasFile : Bool) :
    ClientState × ResumeAction :=
  if hasFile = false then (s, .reselectFile)
  else
    ({ s with
        pausedUploads := s.pausedUploads.filter fun j => j ≠ f.id
        files := s.files.map fun g =>
          if g.id = f.id then { g with status := .uploading } else g },
     .uploadWith f.key f.uploadId)

/-- `resumeFileUpload` (TransferForm.tsx lines 1199-1270).  `validation` is
the reply of the `/api/transfers/validate` fetch (`none` when the fetch
itself rejects); it is only consulted when `transferId` is non-empty, exactly
as in the source (`if (transferId) { ... }`). -/
def resumeFileUpload (s : ClientState) (f : FileInfoSt)
    (validation : Option ValidationResponse) (hasFile : Bool) :
    ClientState × ResumeAction :=
  if f.status = .completed then (s, .noAction)
  else if s.transferId ≠ "" then
    match validation with
    | none => (s, .validationUnreachable)
    | some v =>
      if v.valid = false then
        (handleValidationFailure s f.id v.reason, .invalidated)
      else resumeProceed s f hasFile
  else resumeProceed s f hasFile

/-- A paused file with session identifiers, as stored by the code after a
pause: one completed part (part 1), `uploadId`/`key` assigned. -/
def cexFile : FileInfoSt :=
  { id := "f1", name := "a.bin", size := 6291456, progress := 50,
    status := .paused, uploadId := some "upload-1", key := some "key-1",
    uploadedParts := [⟨1, "e1"⟩], currentPart := 1, error := none }

/-- Client state holding `cexFile` mid-transfer. -/
def cexState : ClientState :=
  { files := [cexFile], transferId := "t1", pausedUploads := ["f1"],
    abortControllers := [], savedState := true,
    showResumeNotification := false }

/-- `cexFile` as rewritten by the `!validation.valid` branch. -/
def cexFileAfter : FileInfoSt :=
  { cexFile with
    status := .error
    error := some "Cannot resume: Transfer not found or expired. Please start a fresh upload." }

/-- C2 counterexample: after `SessionValidator` returns `valid=false` for a
resume of `cexFile`, the file's `uploadId` and `key` are still the old
values (not cleared), and a subsequent resume of that file — validation now
being skipped because `transferId` was emptied — issues uploads with the old
`uploadId`/`key`. -/
theorem resume_validation_failure_cex :
    ((resumeFileUpload cexState cexFile
        (some ⟨false, some "Transfer not found or expired"⟩) true).1.files.map
      fun f => (f.uploadId, f.key)) = [(some "upload-1", some "key-1")] ∧
    (resumeFileUpload
        (resumeFileUpload cexState cexFile
          (some ⟨false, some "Transfer not found or expired"⟩) true).1
        cexFileAfter none true).2 = .uploadWith (some "key-1") (some "upload-1") := by
  constructor
  · rfl
  · rfl

/-- The state produced by the `!validation.valid` branch of `resumeFileUpload`. -/
def afterValidationFailure (s : ClientState) (f : FileInfoSt)
    (v : ValidationResponse) (hasFile : Bool) : ClientState :=
  (resumeFileUpload s f (some v) hasFile).1

/-- C2 amended: when validation returns `valid=false` for a resume of a
non-completed file (with a non-empty `transferId`), the resume is aborted,
the file's status becomes `error` with the restart message, `transferId` and
the persisted upload state are cleared — but every file's `uploadId`/`key`
fields are retained unchanged, and a subsequent resume of any non-completed
file whose content is available (validation now skipped because `transferId`
is empty) proceeds to upload with exactly the `uploadId`/`key` the file still
holds, i.e. the old session identifiers. -/
theorem resume_validation_failure_amended (s : ClientState) (f : FileInfoSt)
    (v : ValidationResponse) (hasFile : Bool)
    (hst : f.status ≠ .completed) (htid : s.transferId ≠ "")
    (hv : v.valid = false) :
    (resumeFileUpload s f (some v) hasFile).2 = .invalidated ∧
    (afterValidationFailure s f v hasFile).transferId = "" ∧
    (afterValidationFailure s f v hasFile).savedState = false ∧
    ((afterValidationFailure s f v hasFile).files.map fun g => (g.uploadId, g.key)) =
      (s.files.map fun g => (g.uploadId, g.key)) ∧
    (∀ g ∈ (afterValidationFailure s f v hasFile).files, g.id = f.id →
      g.status = .error ∧
      g.error = some ("Cannot resume: " ++ v.reason.getD "undefined" ++
        ". Please start a fresh upload.")) ∧
    (∀ g v2 hf2, g.status ≠ .completed →
      (resumeFileUpload (afterValidationFailure s f v hasFile) g v2 hf2).2 =
        (resumeProceed (afterValidationFailure s f v hasFile) g hf2).2) ∧
    (∀ g, g.status ≠ .completed →
      (resumeFileUpload (afterValidationFailure s f v hasFile) g none true).2 =
        .uploadWith g.key g.uploadId) := by
  have hunfold : resumeFileUpload s f (some v) hasFile =
      (handleValidationFailure s f.id v.reason, .invalidated) := by
    unfold resumeFileUpload
    rw [if_neg hst, if_pos htid]
    simp only [hv]
    rfl
  have hafter : afterValidationFailure s f v hasFile =
      handleValidationFailure s f.id v.reason := by
    rw [afterValidationFailure, hunfold]
  refine ⟨by rw [hunfold], ?_, ?_, ?_, ?_, ?_, ?_⟩
  · rw [hafter]; rfl
  · rw [hafter]; rfl
  · rw [hafter]
    simp only [handleValidationFailure, List.map_map]
    refine List.map_congr_left ?_
    intro g _
    by_cases hg : g.id = f.id <;> simp [hg]
  · rw [hafter]
    intro g hg hid
    simp only [handleValidationFailure, List.mem_map] at hg
    obtain ⟨g0, _, rfl⟩ := hg
    by_cases hg0 : g0.id = f.id
    · simp [hg0]
    · rw [if_neg hg0] at hid ⊢
      exact absurd hid hg0
  · intro g v2 hf2 hg
    rw [hafter]
    unfold resumeFileUpload
    rw [if_neg hg]
    have : (handleValidationFailure s f.id v.reason).transferId = "" := rfl
    rw [this]
    simp
  · intro g hg
    rw [hafter]
    unfold resumeFileUpload
    rw [if_neg hg]
    have : (handleValidationFailure s f.id v.reason).transferId = "" := rfl
    rw [this]
    simp [resumeProceed]

/-- Concrete application of `resume_validation_failure_amended` at
`cexState`/`cexFile`. -/
theorem resume_validation_failure_amended_witness :
    (resumeFileUpload cexState cexFile
      (some ⟨false, some "Transfer not found or expired"⟩) true).2 = .invalidated :=
  (resume_validation_failure_amended cexState cexFile
    ⟨false, some "Transfer not found or expired"⟩ true
    (by decide) (by decide) rfl).1

/-! ## Pausing a file mid-upload

`pauseFileUpload` (TransferForm.tsx lines 1183-1197) adds the file to
`pausedUploads`, sets its status to `paused` and calls `abort()` on the
file's abort controller; the aborted in-flight requests reject with
`'Upload paused'`, and the catch branch of `uploadFileInChunks`
(lines 936-953) then records status `paused` together with the
`uploadParts` acknowledged so far.
-/

/-- `pauseFileUpload` (TransferForm.tsx lines 1183-1197). -/
def pauseFileUpload (s : ClientState) (fileId : String) : ClientState :=
  { s with
    pausedUploads := fileId :: s.pausedUploads
    files := s.files.map fun f =>
      if f.id = fileId then { f with status := .paused } else f
    abortControllers := s.abortControllers.map fun c =>
      if c.1 = fileId then (c.1, true) else c }

/-- The `'Upload paused'` catch branch of `uploadFileInChunks`
(TransferForm.tsx lines 936-953): status `paused` (not `error`),
`uploadedParts` set to the parts acknowledged so far, `currentPart` to their
maximum. -/
def handleUploadPaused (s : ClientState) (fileId : String)
    (uploadParts : List UploadPart) : ClientState :=
  { s with
    files := s.files.map fun f =>
      if f.id = fileId then
        { f with
          status := .paused
          uploadedParts := uploadParts
          currentPart := currentPartOf uploadParts }
      else f }

/-- C6: pausing a file mid-upload puts it in `pausedUploads`, aborts its
in-flight requests (every abort controller registered for it is aborted),
and when the aborted upload's catch branch runs with the parts `acked`
acknowledged before the pause took effect, the file's status is `paused`
(not `error`) and its completed-parts set is exactly `acked` — no part
dropped, none added; files other than the paused one are untouched. -/
theorem pause_effect (s : ClientState) (fid : String) (acked : List UploadPart) :
    fid ∈ (pauseFileUpload s fid).pausedUploads ∧
    (∀ c ∈ (pauseFileUpload s fid).abortControllers, c.1 = fid → c.2 = true) ∧
    (∀ f ∈ (handleUploadPaused (pauseFileUpload s fid) fid acked).files,
      (f.id = fid →
        f.status = .paused ∧ f.status ≠ .error ∧ f.uploadedParts = acked) ∧
      (f.id ≠ fid → f ∈ s.files)) := by
  refine ⟨List.mem_cons_self fid _, ?_, ?_⟩
  · intro c hc hcid
    simp only [pauseFileUpload, List.mem_map] at hc
    obtain ⟨c0, _, rfl⟩ := hc
    by_cases h0 : c0.1 = fid
    · simp [h0]
    · rw [if_neg h0] at hcid ⊢
      exact absurd hcid h0
  · intro f hf
    simp only [handleUploadPaused, pauseFileUpload, List.map_map,
      List.mem_map] at hf
    obtain ⟨g, hg, rfl⟩ := hf
    by_cases h0 : g.id = fid
    · constructor
      · intro _
        simp [h0]
      · intro hne
        exact absurd (by simp [h0]) hne
    · constructor
      · intro hid
        rw [Function.comp_apply, if_neg h0] at hid
        rw [if_neg h0] at hid
        exact absurd hid h0
      · intro _
        rw [Function.comp_apply, if_neg h0, if_neg h0]
        exact hg

/-- Concrete application of `pause_effect` at `cexState`. -/
theorem pause_effect_witness :
    "f1" ∈ (pauseFileUpload cexState "f1").pausedUploads :=
  (pause_effect cexState "f1" [⟨1, "e1"⟩]).1

/-! ## One run of `uploadFileInChunks` and the finalize gate

A fresh upload creates one task per part `1..chunks` (lines 880-910) and
runs them through `limitConcurrency` in batches of `CONCURRENT_UPLOADS = 4`
(lines 855-868, 913-916); each successful task pushes its `UploadPart` into
`uploadParts`.  If some task rejects, `Promise.all` rejects with one of the
task errors, and the catch of `uploadFileInChunks` (lines 934-973) returns
`[]` on pause/cancel, or records `status = 'error'` and rethrows otherwise;
on success the parts are sorted and returned (lines 918-933).  `handleSubmit`
calls `completeFileUpload` only when the returned list is non-empty (lines
643-647), and `completeFileUpload` itself returns early on an empty list
(lines 983-986).  The per-part results are supplied as a function `res`.
-/

/-- `CONCURRENT_UPLOADS = 4` (TransferForm.tsx line 693). -/
def CONCURRENT_UPLOADS : Nat := 4

/-- The per-part final results of a fresh run over parts `1..chunks`, each
part running `uploadChunkWithRetry` against its own attempt oracle. -/
def runUploadResults (oracles : Nat → Nat → AttemptResult) :
    Nat → Except UploadErr UploadPart :=
  fun p => (uploadChunkWithRetry p (oracles p) 0).1

/-- The error `Promise.all` rejects with, if any task rejected (taken in
part-number order; which racing rejection wins is timing-dependent in the
source, but in the scenarios proved below all rejections are of the same
kind). -/
def firstError (chunks : Nat) (res : Nat → Except UploadErr UploadPart) :
    Option UploadErr :=
  (List.range' 1 chunks).findSome? fun p =>
    match res p with
    | .error e => some e
    | .ok _ => none

/-- The parts pushed into `uploadParts` by the successful tasks. -/
def collectedParts (chunks : Nat) (res : Nat → Except UploadErr UploadPart) :
    List UploadPart :=
  (List.range' 1 chunks).filterMap fun p => (res p).toOption

/-- How one invocation of `uploadFileInChunks` ends. -/
inductive RunOutcome
  | completedRun (parts : List UploadPart)
  | pausedRun (parts : List UploadPart)
  | cancelledRun
  | errorRun (msg : String)
deriving DecidableEq, Repr

/-- One fresh invocation of `uploadFileInChunks` over parts `1..chunks`
(TransferForm.tsx lines 876-973): with no rejection the sorted parts are
returned; a pause rejection records the acknowledged parts and pauses; a
cancel rejection returns empty; any other rejection is a hard error. -/
def runUploadFileInChunks (chunks : Nat)
    (res : Nat → Except UploadErr UploadPart) : RunOutcome :=
  match firstError chunks res with
  | none => .completedRun (sortUploadParts (collectedParts chunks res))
  | some .pausedErr => .pausedRun (collectedParts chunks res)
  | some .cancelledErr => .cancelledRun
  | some (.failedErr m) => .errorRun m

/-- The file status written by the tail of `uploadFileInChunks` for each
outcome (TransferForm.tsx lines 921-930 for success — `completed` only when
all parts are present — line 946 for pause, lines 962-972 for error; a
cancel leaves the status as it was). -/
def statusAfterRun (chunks : Nat) (prior : Status) : RunOutcome → Status
  | .completedRun parts => if parts.length = chunks then .completed else prior
  | .pausedRun _ => .paused
  | .cancelledRun => prior
  | .errorRun _ => .error

/-- The value `uploadFileInChunks` settles with for `handleSubmit`: the
parts list on return, or the thrown error (TransferForm.tsx lines 933, 953,
959, 973). -/
def returnedParts : RunOutcome → Except String (List UploadPart)
  | .completedRun parts => .ok parts
  | .pausedRun _ => .ok []
  | .cancelledRun => .ok []
  | .errorRun m => .error m

/-- The parts `completeFileUpload` is invoked with, if at all: `handleSubmit`
only calls it on a non-empty parts list (TransferForm.tsx lines 643-647),
and a rejected `uploadFileInChunks` skips it. -/
def finalizeCall (r : Except String (List UploadPart)) :
    Option (List UploadPart) :=
  match r with
  | .ok ps => if 0 < ps.length then some ps else none
  | .error _ => none

theorem uploadChunkWithRetry_exhausted (p : Nat) (o : Nat → AttemptResult)
    (htr : ∀ i, i ≤ MAX_RETRIES → isTransient (o i) = true) :
    ∀ r, r ≤ MAX_RETRIES →
      ∃ m, (uploadChunkWithRetry p o r).1 = .error (.failedErr m) := by
  suffices key : ∀ n r, MAX_RETRIES - r = n → r ≤ MAX_RETRIES →
      ∃ m, (uploadChunkWithRetry p o r).1 = .error (.failedErr m) by
    intro r hr; exact key _ r rfl hr
  intro n
  induction n using Nat.strong_induction_on with
  | _ n ih =>
    intro r hn hr
    have htrr : isTransient (o r) = true := htr r hr
    rw [uploadChunkWithRetry]
    cases ho : o r with
    | success e => rw [ho] at htrr; simp [isTransient] at htrr
    | pausedSignal => rw [ho] at htrr; simp [isTransient] at htrr
    | cancelledSignal => rw [ho] at htrr; simp [isTransient] at htrr
    | httpFailure st t =>
      simp only
      split
      · next hlt =>
        exact ih (MAX_RETRIES - (r + 1)) (by omega) (r + 1) rfl (by omega)
      · exact ⟨_, rfl⟩
    | invalidJson =>
      simp only
      split
      · next hlt =>
        exact ih (MAX_RETRIES - (r + 1)) (by omega) (r + 1) rfl (by omega)
      · exact ⟨_, rfl⟩
    | networkFailure =>
      simp only
      split
      · next hlt =>
        exact ih (MAX_RETRIES - (r + 1)) (by omega) (r + 1) rfl (by omega)
      · exact ⟨_, rfl⟩

theorem uploadChunkWithRetry_not_paused (p : Nat) (o : Nat → AttemptResult)
    (hnp : ∀ i, o i ≠ .pausedSignal ∧ o i ≠ .cancelledSignal) :
    ∀ r, (uploadChunkWithRetry p o r).1 ≠ .error .pausedErr ∧
      (uploadChunkWithRetry p o r).1 ≠ .error .cancelledErr := by
  suffices key : ∀ n r, MAX_RETRIES - r = n →
      (uploadChunkWithRetry p o r).1 ≠ .error .pausedErr ∧
      (uploadChunkWithRetry p o r).1 ≠ .error .cancelledErr by
    intro r; exact key _ r rfl
  intro n
  induction n using Nat.strong_induction_on with
  | _ n ih =>
    intro r hn
    rw [uploadChunkWithRetry]
    cases ho : o r with
    | success e => simp
    | pausedSignal => exact absurd ho (hnp r).1
    | cancelledSignal => exact absurd ho (hnp r).2
    | httpFailure st t =>
      simp only
      split
      · next hlt => exact ih (MAX_RETRIES - (r + 1)) (by omega) (r + 1) rfl
      · simp
    | invalidJson =>
      simp only
      split
      · next hlt => exact ih (MAX_RETRIES - (r + 1)) (by omega) (r + 1) rfl
      · simp
    | networkFailure =>
      simp only
      split
      · next hlt => exact ih (MAX_RETRIES - (r + 1)) (by omega) (r + 1) rfl
      · simp

/-- C7: concrete 12 MiB / 5 MiB-chunk scenario.  The slicer yields 3 parts
of 5, 5, 2 MiB.  If every attempt of part 2 fails transiently (so its 4
attempts — 1 plus `MAX_RETRIES` retries — are exhausted), and no attempt of
any part is a pause or cancel signal, then the run ends as a hard error, the
file's status becomes `error`, and no finalize (`completeTransfer`) call is
made at all — in particular none while fewer than 3 parts are complete. -/
theorem error_scenario_12MiB (oracles : Nat → Nat → AttemptResult)
    (h2 : ∀ i, i ≤ MAX_RETRIES → isTransient (oracles 2 i) = true)
    (hnp : ∀ p i, oracles p i ≠ .pausedSignal ∧ oracles p i ≠ .cancelledSignal) :
    numChunks (12 * 1024 * 1024) CHUNK_SIZE = 3 ∧
    (slice (12 * 1024 * 1024) CHUNK_SIZE).map
        (fun r => r.endPos - r.start) =
      [5 * 1024 * 1024, 5 * 1024 * 1024, 2 * 1024 * 1024] ∧
    (∃ m, runUploadFileInChunks 3 (runUploadResults oracles) = .errorRun m) ∧
    statusAfterRun 3 .uploading (runUploadFileInChunks 3 (runUploadResults oracles)) =
      .error ∧
    finalizeCall (returnedParts (runUploadFileInChunks 3 (runUploadResults oracles))) =
      none := by
  refine ⟨by decide, by decide, ?_⟩
  obtain ⟨m2, hm2⟩ := uploadChunkWithRetry_exhausted 2 (oracles 2) h2 0 (by decide)
  have hfe : ∃ m, firstError 3 (runUploadResults oracles) = some (.failedErr m) := by
    unfold firstError
    have hrange : List.range' 1 3 = [1, 2, 3] := by decide
    rw [hrange]
    simp only [List.findSome?]
    cases h1 : runUploadResults oracles 1 with
    | error e1 =>
      have hne := uploadChunkWithRetry_not_paused 1 (oracles 1) (fun i => hnp 1 i) 0
      rw [show (uploadChunkWithRetry 1 (oracles 1) 0).1 = runUploadResults oracles 1 from rfl, h1] at hne
      cases e1 with
      | pausedErr => exact absurd rfl hne.1
      | cancelledErr => exact absurd rfl hne.2
      | failedErr m1 => exact ⟨m1, rfl⟩
    | ok u1 =>
      have h2r : runUploadResults oracles 2 = .error (.failedErr m2) := hm2
      rw [h2r]
      exact ⟨m2, rfl⟩
  obtain ⟨m, hm⟩ := hfe
  have hrun : runUploadFileInChunks 3 (runUploadResults oracles) = .errorRun m := by
    unfold runUploadFileInChunks
    rw [hm]
  refine ⟨⟨m, hrun⟩, ?_, ?_⟩
  · rw [hrun]; rfl
  · rw [hrun]; rfl

/-- Concrete application of `error_scenario_12MiB`: with every attempt of
every part failing with a network error, the run's status is `error`. -/
theorem error_scenario_12MiB_witness :
    statusAfterRun 3 .uploading
      (runUploadFileInChunks 3 (runUploadResults fun _ _ => .networkFailure)) =
      .error :=
  (error_scenario_12MiB (fun _ _ => .networkFailure)
    (fun _ _ => rfl) (fun _ _ => ⟨(fun h => nomatch h), (fun h => nomatch h)⟩)).2.2.2.1

/-! ## Server route handlers

The Hono worker (`src/unnamed/part_000`): the `transfers` table row, the
`files` table rows, and the three handlers the claims are about.  The
database is modelled as the `transfers` lookup plus the list of `files`
rows; `Date.now()` is the `now` argument.
-/

/-- Row of the `transfers` table, the columns read/written by the handlers
(part_000 lines 77-85). -/
structure TransferRecord where
  status : String
  expires_at : Nat
  created_at : Nat
deriving DecidableEq, Repr

/-- Row of the `files` table (part_000 lines 143-153). -/
structure FileRecord where
  id : String
  transfer_id : String
  filename : String
  filesize : Nat
  r2_object_key : String
  created_at : Nat
deriving DecidableEq, Repr

/-- The persistent store the handlers touch. -/
structure Db where
  transfers : String → Option TransferRecord
  files : List FileRecord

/-- The row inserted by `POST /api/transfers` (part_000 lines 61-63 and
77-85; the old-schema fallback at lines 89-100 binds the same
`('pending', expiresAt, createdAt)` values):
`expiresAt = Date.now() + 24 * 60 * 60 * 1000`, `createdAt = Date.now()`,
status `'pending'`. -/
def createTransferRecord (now : Nat) : TransferRecord :=
  { status := "pending"
    expires_at := now + 24 * 60 * 60 * 1000
    created_at := now }

/-- `POST /api/transfers` (part_000 lines 46-188), restricted to the
transfer-row insert the claim is about. -/
def createTransferHandler (db : Db) (transferId : String) (now : Nat) : Db :=
  { db with transfers := fun j =>
      if j = transferId then some (createTransferRecord now) else db.transfers j }

/-- C10: every transfer inserted by the createTransfer endpoint has status
`'pending'` and an expiry timestamp exactly 24 hours
(`24 * 60 * 60 * 1000` ms) after its creation timestamp. -/
theorem createTransfer_pending_24h (db : Db) (transferId : String) (now : Nat) :
    (createTransferHandler db transferId now).transfers transferId =
      some (createTransferRecord now) ∧
    (createTransferRecord now).status = "pending" ∧
    (createTransferRecord now).expires_at =
      (createTransferRecord now).created_at + 24 * 60 * 60 * 1000 := by
  refine ⟨?_, rfl, rfl⟩
  unfold createTransferHandler
  simp

/-- Concrete application of `createTransfer_pending_24h` at time 0. -/
theorem createTransfer_pending_24h_witness :
    (createTransferHandler ⟨fun _ => none, []⟩ "t1" 0).transfers "t1" =
      some (createTransferRecord 0) :=
  (createTransfer_pending_24h ⟨fun _ => none, []⟩ "t1" 0).1

/-- `SELECT * FROM transfers WHERE id = ? AND expires_at > ?` (part_000
lines 230-232): the row, filtered by strict expiry. -/
def selectActiveTransfer (db : Db) (transferId : String) (now : Nat) :
    Option TransferRecord :=
  (db.transfers transferId).filter fun t => decide (now < t.expires_at)

/-- `GET /api/transfers/validate/:transferId` (part_000 lines 225-266):
`valid=false` with reason when the row is missing or expired, `valid=false`
with reason when the transfer is already `'complete'`, else `valid=true`
(and no reason). -/
def validateTransferHandler (db : Db) (transferId : String) (now : Nat) :
    ValidationResponse :=
  match selectActiveTransfer db transferId now with
  | none => ⟨false, some "Transfer not found or expired"⟩
  | some t =>
    if t.status = "complete" then ⟨false, some "Transfer already completed"⟩
    else ⟨true, none⟩

/-- C8: the validate endpoint replies `valid=true` iff the transfer record
exists, its expiry timestamp is strictly in the future, and its status is
not `'complete'`; in every other case it replies `valid=false` together
with a reason string. -/
theorem validate_spec (db : Db) (transferId : String) (now : Nat) :
    ((validateTransferHandler db transferId now).valid = true ↔
      ∃ t, db.transfers transferId = some t ∧ now < t.expires_at ∧
        t.status ≠ "complete") ∧
    ((validateTransferHandler db transferId now).valid = false →
      ((validateTransferHandler db transferId now).reason).isSome = true) := by
  unfold validateTransferHandler selectActiveTransfer
  cases hdb : db.transfers transferId with
  | none => simp
  | some t =>
    by_cases hexp : now < t.expires_at
    · by_cases hst : t.status = "complete"
      · simp [Option.filter, hexp, hst]
      · simp [Option.filter, hexp, hst]
    · simp [Option.filter, hexp]

/-- Concrete application of `validate_spec`: a pending, unexpired transfer
validates as `valid=true`. -/
theorem validate_spec_witness :
    (validateTransferHandler
      ⟨fun _ => some ⟨"pending", 100, 0⟩, []⟩ "t1" 50).valid = true :=
  (validate_spec ⟨fun _ => some ⟨"pending", 100, 0⟩, []⟩ "t1" 50).1.mpr
    ⟨⟨"pending", 100, 0⟩, rfl, by decide, by decide⟩

/-- Request body of `POST /api/transfers/complete`
(`CompleteTransferSchema`, part_000 lines 19-27). -/
structure CompleteRequest where
  transferId : String
  key : String
  uploadId : String
  parts : List UploadPart
deriving DecidableEq, Repr

/-- `POST /api/transfers/complete` (part_000 lines 301-328): after the R2
multipart `complete()` call succeeds (`multipartOk`), the handler runs
`UPDATE transfers SET status = 'complete' WHERE id = ?` — unconditionally on
the transfer row, reading nothing about the transfer's files — and replies
success; if `complete()` throws, the catch replies with an error and the
database is untouched. -/
def completeTransferHandler (db : Db) (req : CompleteRequest)
    (multipartOk : Bool) : Db × Bool :=
  if multipartOk then
    ({ db with transfers := fun j =>
        if j = req.transferId then
          (db.transfers j).map fun t => { t with status := "complete" }
        else db.transfers j },
     true)
  else (db, false)

/-- C9: one successful completeTransfer call for a single file sets the
parent transfer's status to `'complete'`, whatever its previous status and
regardless of the state of the transfer's other files (the `files` rows are
arbitrary and pass through unread). -/
theorem complete_marks_transfer (db : Db) (req : CompleteRequest)
    (t : TransferRecord) (h : db.transfers req.transferId = some t) :
    (completeTransferHandler db req true).1.transfers req.transferId =
      some { t with status := "complete" } ∧
    (completeTransferHandler db req true).1.files = db.files ∧
    (completeTransferHandler db req true).2 = true := by
  unfold completeTransferHandler
  simp [h]

/-- Concrete application of `complete_marks_transfer`: completing one file
of a pending two-file transfer marks the whole transfer `'complete'`. -/
theorem complete_marks_transfer_witness :
    (completeTransferHandler
        ⟨fun _ => some ⟨"pending", 100, 0⟩,
          [⟨"fileA", "t1", "a.bin", 10, "k1", 0⟩,
           ⟨"fileB", "t1", "b.bin", 10, "k2", 0⟩]⟩
        ⟨"t1", "k1", "u1", [⟨1, "e1"⟩]⟩ true).1.transfers "t1" =
      some ⟨"complete", 100, 0⟩ :=
  (complete_marks_transfer
    ⟨fun _ => some ⟨"pending", 100, 0⟩,
      [⟨"fileA", "t1", "a.bin", 10, "k1", 0⟩,
       ⟨"fileB", "t1", "b.bin", 10, "k2", 0⟩]⟩
    ⟨"t1", "k1", "u1", [⟨1, "e1"⟩]⟩ ⟨"pending", 100, 0⟩ rfl).1

end TransferProtocol
